import Mathlib

/-!
Verification of the attribute-provenance mechanism of
`topology_openswitch` (file `lib/topology_openswitch/openswitch.py`).

The development is a shallow embedding of the class-hierarchy machinery of
that module:

* a hierarchy of classes rooted at `OpenSwitchBase` (index `0`), each class
  carrying its own `_class_openswitch_attributes` dict (or no such entry in
  its class dict), a single in-hierarchy parent, and an abstractness flag
  (`__abstractmethods__` non-empty).  Within the `OpenSwitchBase` subtree
  the repository's hierarchies are single-inheritance, which is what the
  embedding models: `cls.__bases__` contributes exactly one
  `OpenSwitchBase`-derived base per class (out-of-hierarchy bases such as
  `CommonNode` are skipped by every loop of the source and are not
  represented).

* `_MetaOpenSwitch.__call__` synthesizes, on the class being instantiated,
  one property per entry of `self._openswitch_attributes`.  The
  `_openswitch_attributes` metaclass property attempts to merge the
  `_class_openswitch_attributes` dicts along the MRO through
  `super(current_parent, self)._openswitch_attributes`, but that lookup
  searches the MRO of the plain class (where no `_openswitch_attributes`
  exists) rather than the metaclass, so it raises `AttributeError` on the
  first call and the `except AttributeError` arm always runs; moreover
  `self == self.__mro__[0]` always holds, so `next_parents` is popped once
  and deleted.  The net effect (checked against CPython) is that
  `self._openswitch_attributes` evaluates to the *nearest*
  `_class_openswitch_attributes` dict along the MRO, and instantiating a
  class installs properties for exactly those names on the instantiated
  class itself.  `nearestDecl` below embeds this, and `classDict` gives the
  set of capability names present in a class `__dict__` (the class dict is
  modelled at capability granularity: method names and dunder entries are
  outside the name space of capability lookups considered here).

* each synthesized property reads/writes/deletes the private slot
  `_<name>`, recording the name in the instance's `_attribute_record` set
  in the getter (before the slot access, hence also on failed reads).
  Instance slots are modelled by a map from the capability name to an
  optional value (the key `n` stands for the Python instance attribute
  `_n`; requested capability names never collide with these underscore
  keys, so the instance dict offers no direct hit for a capability name and
  failed lookups fall through to `__getattr__` exactly as in the source).

* `OpenSwitchBase.__getattr__` first raises `DeletedAttributeError` when
  the name is in the instance's own class `__dict__`, then calls
  `_find_attribute`, which climbs to `OpenSwitchBase` and collects, over
  `_get_all_subclasses()` (direct subclasses in definition order, then the
  subclasses of each, recursively), the names of the classes whose
  `__dict__` contains the requested name, raising `WrongAttributeError`
  when that list is non-empty; otherwise the final
  `self.__getattribute__(name)` raises a plain `AttributeError`.

* `_find_class` climbs concrete parents whose `__dict__` covers the
  accessed-attribute set and `__del__` warns when the resulting class
  differs from the instance's own, reading `self._attribute_record` and
  `self.identifier` (the latter supplied by the host framework's
  `CommonNode`); both reads fail with `AttributeError` when the slot is
  absent.  CPython discards any exception escaping a destructor invoked by
  the runtime, which `teardown` models on top of the faithful `delBody`.

The recursions of the source (`_find_attribute`, `_get_all_subclasses`,
`_find_class`, the MRO walk) descend along parent or child links of the
class graph.  To keep every definition computable by the kernel they are
written with an explicit structural fuel argument, always invoked with
enough fuel (a parent index is smaller than its child's, so the index
itself bounds an ancestor walk and the hierarchy size bounds a descendant
walk); the recurrence each function satisfies is proved as an equation
(`ancestors_eq`, `allSubs_unfold`, `nearestDecl_eq`, `findClass_eq`) and
is the only interface the proofs use.
-/

/-- One class of the `OpenSwitchBase` hierarchy.  `parent` is the index of
its single `OpenSwitchBase`-derived base (`none` for the root),
`declared` is the `_class_openswitch_attributes` entry of the class's own
`__dict__` (`none` when the class body does not assign one, in which case
Python finds the nearest ancestor's dict), and `isAbstract` records
whether `__abstractmethods__` is non-empty. -/
structure PyClass where
  name : String
  parent : Option Nat
  declared : Option (List (String × String))
  isAbstract : Bool

/-- A hierarchy is the list of its classes in definition order; index `0`
is `OpenSwitchBase` itself.  Definition order is also the order of
`type.__subclasses__()`. -/
abbrev Hierarchy := List PyClass

/-- Index of the parent class, if any (`cls.__bases__` restricted to the
hierarchy). -/
def parentOf (h : Hierarchy) (i : Nat) : Option Nat :=
  (h.get? i).bind PyClass.parent

/-- The class's own `_class_openswitch_attributes` entry, if its class body
declares one. -/
def declaredOf (h : Hierarchy) (i : Nat) : Option (List (String × String)) :=
  (h.get? i).bind PyClass.declared

/-- The `__name__` of the class at an index. -/
def classNameOf (h : Hierarchy) (i : Nat) : String :=
  ((h.get? i).map PyClass.name).getD ""

/-- Whether `__abstractmethods__` of the class at an index is non-empty
(out-of-range indices count as abstract, mirroring that they cannot be
instantiated). -/
def isAbs (h : Hierarchy) (i : Nat) : Bool :=
  ((h.get? i).map PyClass.isAbstract).getD true

/-- Boolean membership test on a list of names. -/
def hasName (l : List String) (n : String) : Bool :=
  decide (n ∈ l)

/-- Fuel recursion behind `ancestors`; the `p < i` guard makes fuel `i`
sufficient. -/
def ancestorsAux (h : Hierarchy) : Nat → Nat → List Nat
  | 0, i => [i]
  | fuel + 1, i =>
    match parentOf h i with
    | some p => if p < i then i :: ancestorsAux h fuel p else [i]
    | none => [i]

/-- The in-hierarchy part of the MRO of a class: the class followed by its
ancestor chain up to the root.  The `p < i` guard only serves termination;
in a well-formed hierarchy every parent index is smaller than the child's. -/
def ancestors (h : Hierarchy) (i : Nat) : List Nat :=
  ancestorsAux h i i

/-- Fuel recursion behind `nearestDecl`; the `p < i` guard makes fuel `i`
sufficient. -/
def nearestDeclAux (h : Hierarchy) : Nat → Nat → List (String × String)
  | 0, i =>
    match declaredOf h i with
    | some d => d
    | none => []
  | fuel + 1, i =>
    match declaredOf h i with
    | some d => d
    | none =>
      match parentOf h i with
      | some p => if p < i then nearestDeclAux h fuel p else []
      | none => []

/-- What `self._openswitch_attributes` evaluates to for the class at index
`i`: the nearest `_class_openswitch_attributes` dict along the MRO (see the
header: the metaclass property's `super` recursion always lands in its
`except AttributeError` arm, so no merging across the MRO takes place). -/
def nearestDecl (h : Hierarchy) (i : Nat) : List (String × String) :=
  nearestDeclAux h i i

/-- The set of classes whose capability properties have been synthesized,
i.e. the classes that `_MetaOpenSwitch.__call__` has run for (a class is
added on each instantiation; repeated instantiation re-installs the same
properties). -/
abbrev ClassState := List Nat

/-- The capability names present in the `__dict__` of the class at index
`i`: the keys of its nearest declared dict once the class has been
instantiated, nothing before (properties are installed on the instantiated
class only). -/
def classDict (h : Hierarchy) (st : ClassState) (i : Nat) : List String :=
  if i ∈ st then (nearestDecl h i).map Prod.fst else []

/-- Direct subclasses of the class at index `i`, in definition order
(`type.__subclasses__()`).  The `i < j` condition restates that a subclass
is defined after its base; in a well-formed hierarchy it is redundant. -/
def children (h : Hierarchy) (i : Nat) : List Nat :=
  (List.range h.length).filter fun j =>
    decide (parentOf h j = some i) && decide (i < j)

/-- Fuel recursion behind `allSubs`; each level descends to classes of
strictly larger index, so fuel `h.length` is sufficient. -/
def allSubsAux (h : Hierarchy) : Nat → Nat → List Nat
  | 0, _ => []
  | fuel + 1, i => children h i ++ (children h i).flatMap (allSubsAux h fuel)

/-- `OpenSwitchBase._get_all_subclasses`: the direct subclasses followed by
the recursively collected subclasses of each, in that order. -/
def allSubs (h : Hierarchy) (i : Nat) : List Nat :=
  allSubsAux h h.length i

/-- One live instance: its concrete class, its private slots (`slots n`
models the Python instance attribute `_n`) and its `_attribute_record`. -/
structure PyInstance (V : Type) where
  clsIdx : Nat
  slots : String → Option V
  record : List String

/-- Outcome of an attribute read on an instance. -/
inductive ReadOutcome (V : Type) where
  | ok : V → ReadOutcome V
  | deletedAttr : String → ReadOutcome V
  | wrongAttr : String → String → List String → ReadOutcome V
  | attrErr : ReadOutcome V
deriving DecidableEq

/-- The first class of the instance's MRO whose `__dict__` holds a
property for `name` — the property that `__getattribute__` would invoke. -/
def findPropOwner (h : Hierarchy) (st : ClassState) (i : Nat)
    (name : String) : Option Nat :=
  (ancestors h i).find? fun c => hasName (classDict h st c) name

/-- `OpenSwitchBase.__getattr__`: raise `DeletedAttributeError` when the
name is in the instance's own class `__dict__`; otherwise
`_find_attribute` collects over `_get_all_subclasses()` of the root the
names of the classes whose `__dict__` holds the requested name and raises
`WrongAttributeError` when the list is non-empty; otherwise the final
`self.__getattribute__(name)` raises a plain `AttributeError`. -/
def getattrFb {V : Type} (h : Hierarchy) (st : ClassState) (i : PyInstance V)
    (name : String) : ReadOutcome V × PyInstance V :=
  if hasName (classDict h st i.clsIdx) name then (.deletedAttr name, i)
  else
    let owners := ((allSubs h 0).filter fun c =>
      hasName (classDict h st c) name).map (classNameOf h)
    if owners.isEmpty then (.attrErr, i)
    else (.wrongAttr name (classNameOf h i.clsIdx) owners, i)

/-- Reading `instance.name`.  When a property for the name exists somewhere
in the MRO its getter runs: the name is added to `_attribute_record`
(before the slot access, hence also when the slot turns out to be absent)
and the private slot is returned; an absent slot makes the getter raise
`AttributeError`, which sends Python to `__getattr__`.  With no property
anywhere the lookup fails directly into `__getattr__`. -/
def readAttr {V : Type} (h : Hierarchy) (st : ClassState) (i : PyInstance V)
    (name : String) : ReadOutcome V × PyInstance V :=
  match findPropOwner h st i.clsIdx name with
  | some _ =>
    let i' := { i with record := i.record.insert name }
    match i.slots name with
    | some v => (.ok v, i')
    | none => getattrFb h st i' name
  | none => getattrFb h st i name

/-- Writing `instance.name = v` through the synthesized property: the
setter stores the value in the private slot and touches nothing else.
`none` when no property for the name exists in the MRO (the source would
then create a plain instance attribute, which is outside the capability
protocol modelled here). -/
def writeCap {V : Type} (h : Hierarchy) (st : ClassState) (i : PyInstance V)
    (name : String) (v : V) : Option (PyInstance V) :=
  match findPropOwner h st i.clsIdx name with
  | some _ =>
    some { i with slots := fun k => if k = name then some v else i.slots k }
  | none => none

/-- Deleting `del instance.name` through the synthesized property: the
deleter removes the private slot.  `none` when no property exists or the
slot is already absent (Python raises `AttributeError` in both cases). -/
def deleteCap {V : Type} (h : Hierarchy) (st : ClassState) (i : PyInstance V)
    (name : String) : Option (PyInstance V) :=
  match findPropOwner h st i.clsIdx name with
  | some _ =>
    match i.slots name with
    | some _ =>
      some { i with slots := fun k => if k = name then none else i.slots k }
    | none => none
  | none => none

/-- Instantiating the concrete class at index `c`:
`_MetaOpenSwitch.__call__` installs the class's capability properties on
the class itself, and `OpenSwitchBase.__init__` gives the new instance an
empty `_attribute_record`.  `slots0` stands for whatever private slots the
concrete subclass constructor assigns. -/
def construct {V : Type} (_h : Hierarchy) (st : ClassState) (c : Nat)
    (slots0 : String → Option V) : ClassState × PyInstance V :=
  (st.insert c, { clsIdx := c, slots := slots0, record := [] })

/-- An `AttributeError` escaping the audit, carrying the looked-up name. -/
inductive PyErr where
  | attributeError : String → PyErr
deriving DecidableEq

/-- The advisory emitted by `__del__`: the instance's identifier and the
`__name__` of the recommended class. -/
structure AuditWarning where
  identifier : String
  recommended : String
deriving DecidableEq

/-- Fuel recursion behind `findClass`; the `p < c` guard makes fuel `c`
sufficient. -/
def findClassAux (h : Hierarchy) (st : ClassState) :
    Nat → Nat → List String → Nat
  | 0, c, _ => c
  | fuel + 1, c, attrs =>
    match parentOf h c with
    | none => c
    | some p =>
      if p < c then
        if isAbs h p then c
        else if p = 0 then c
        else if attrs.all fun a => hasName (classDict h st p) a then
          findClassAux h st fuel p attrs
        else c
      else c

/-- `OpenSwitchBase._find_class`: walk the (single, in this embedding)
in-hierarchy parent as long as it is concrete, is not `OpenSwitchBase`
itself, and its `__dict__` covers the accessed-attribute set; the loop's
`else` returns the current class otherwise. -/
def findClass (h : Hierarchy) (st : ClassState) (c : Nat)
    (attrs : List String) : Nat :=
  findClassAux h st c c attrs

/-- The body of `OpenSwitchBase.__del__`, as written: it reads
`self._attribute_record` and (only when a warning is due)
`self.identifier`, either of which raises `AttributeError` when the
instance lacks the attribute; there is no exception handling in the
method itself. -/
def delBody (h : Hierarchy) (st : ClassState) (cls : Nat)
    (record? : Option (List String)) (ident? : Option String) :
    Except PyErr (Option AuditWarning) :=
  match record? with
  | none => .error (.attributeError "_attribute_record")
  | some r =>
    let higher := findClass h st cls r
    if higher = cls then .ok none
    else
      match ident? with
      | none => .error (.attributeError "identifier")
      | some id =>
        .ok (some { identifier := id, recommended := classNameOf h higher })

/-- Teardown as driven by the CPython runtime: the interpreter invokes
`__del__` and discards any exception it raises (it is reported, never
propagated to the code releasing the reference). -/
def teardown (h : Hierarchy) (st : ClassState) (cls : Nat)
    (record? : Option (List String)) (ident? : Option String) :
    Option AuditWarning :=
  match delBody h st cls record? ident? with
  | .error _ => none
  | .ok w => w

/-- `DeletedAttributeError.__str__`: the method returns the message
template itself without calling `format`, so the result is the same
constant text (containing the literal placeholder characters) for every
attribute. -/
def deletedAttrStr (_attribute : String) : String :=
  "Attribute \x7b\x7d was not present in the instance but is present in" ++
    " the class. Has it been deleted?"

/-- Guard on parent indices used by well-formedness. -/
def parentLtB (h : Hierarchy) (j : Nat) : Bool :=
  match parentOf h j with
  | some p => decide (p < j)
  | none => false

/-- Well-formed hierarchy: non-empty, the root has no in-hierarchy parent,
and every other class has a parent of smaller index (so all ancestor
chains end at the root, index `0`). -/
def Wf (h : Hierarchy) : Prop :=
  0 < h.length ∧ parentOf h 0 = none ∧
    ∀ j, j < h.length → 0 < j → parentLtB h j = true

instance (h : Hierarchy) : Decidable (Wf h) := by
  unfold Wf
  have : Decidable (∀ j, j < h.length → 0 < j → parentLtB h j = true) :=
    Nat.decidableBallLT h.length fun j _ => 0 < j → parentLtB h j = true
  exact instDecidableAnd

/-- Checks whether a read outcome is a `WrongAttributeError` listing the
given class name among the owning classes. -/
def listsOwner {V : Type} (o : ReadOutcome V) (cls : String) : Bool :=
  match o with
  | .wrongAttr _ _ owners => decide (cls ∈ owners)
  | _ => false

/-- The audit chain of the spec's end-to-end scenario: `Child4` extends
`Child2` extends `Child1`, each declaring one capability (`c4`, `c2`,
`c1`), all concrete, below the abstract root. -/
def chainH : Hierarchy := [
  { name := "OpenSwitchBase", parent := none, declared := some [],
    isAbstract := true },
  { name := "Child1", parent := some 0, declared := some [("c1", "c1 doc")],
    isAbstract := false },
  { name := "Child2", parent := some 1, declared := some [("c2", "c2 doc")],
    isAbstract := false },
  { name := "Child4", parent := some 2, declared := some [("c4", "c4 doc")],
    isAbstract := false }]

/-- Class state after a `Child2` and a `Child4` instance have been
constructed (their properties are synthesized; `Child1` was never
instantiated). -/
def stChain : ClassState := [2, 3]

/-- A slot map with every private slot absent. -/
def noSlotsN : String → Option Nat := fun _ => none

/-- Hierarchy for the unrelated-sibling scenario: `C` declares capability
`n`, `D` declares nothing of its own, both concrete direct subclasses of
the root. -/
def sibH : Hierarchy := [
  { name := "OpenSwitchBase", parent := none, declared := some [],
    isAbstract := true },
  { name := "C", parent := some 0, declared := some [("n", "n doc")],
    isAbstract := false },
  { name := "D", parent := some 0, declared := some [],
    isAbstract := false }]

/-- Hierarchy for the provenance-list scenario: `Child2` declares `x`; `E`
extends `Child2` declaring no dict of its own (so its nearest declared
dict is `Child2`'s); `F` is an unrelated concrete sibling. -/
def inhH : Hierarchy := [
  { name := "OpenSwitchBase", parent := none, declared := some [],
    isAbstract := true },
  { name := "Child2", parent := some 0, declared := some [("x", "x doc")],
    isAbstract := false },
  { name := "E", parent := some 1, declared := none,
    isAbstract := false },
  { name := "F", parent := some 0, declared := some [],
    isAbstract := false }]

theorem hasName_iff {l : List String} {n : String} :
    hasName l n = true ↔ n ∈ l := by
  simp [hasName]

theorem hasName_false_iff {l : List String} {n : String} :
    hasName l n = false ↔ n ∉ l := by
  simp [hasName]

theorem mem_children_iff {h : Hierarchy} {i j : Nat} :
    j ∈ children h i ↔ j < h.length ∧ parentOf h j = some i ∧ i < j := by
  simp [children, List.mem_filter, List.mem_range, and_assoc]

theorem children_bounds {h : Hierarchy} {i j : Nat} (hj : j ∈ children h i) :
    j < h.length ∧ i < j := by
  rcases mem_children_iff.mp hj with ⟨h1, _, h3⟩
  exact ⟨h1, h3⟩

theorem children_nodup (h : Hierarchy) (i : Nat) : (children h i).Nodup :=
  (List.nodup_range _).filter _

theorem children_pairwise_lt (h : Hierarchy) (i : Nat) :
    (children h i).Pairwise (· < ·) :=
  (List.pairwise_lt_range h.length).filter _

theorem ancestorsAux_irrel (h : Hierarchy) :
    ∀ f1 i f2, i ≤ f1 → i ≤ f2 →
      ancestorsAux h f1 i = ancestorsAux h f2 i := by
  intro f1
  induction f1 with
  | zero =>
    intro i f2 h1 _
    have h0 : i = 0 := Nat.le_zero.mp h1
    subst h0
    cases f2 with
    | zero => rfl
    | succ f2 =>
      simp only [ancestorsAux]
      cases parentOf h 0 with
      | some p => simp
      | none => rfl
  | succ f1 ih =>
    intro i f2 h1 h2
    cases f2 with
    | zero =>
      have h0 : i = 0 := Nat.le_zero.mp h2
      subst h0
      simp only [ancestorsAux]
      cases parentOf h 0 with
      | some p => simp
      | none => rfl
    | succ f2 =>
      simp only [ancestorsAux]
      cases parentOf h i with
      | some p =>
        by_cases hlt : p < i
        · simp only [if_pos hlt]
          rw [ih p f2 (by omega) (by omega)]
        · simp [hlt]
      | none => rfl

theorem ancestors_eq (h : Hierarchy) (i : Nat) :
    ancestors h i =
      match parentOf h i with
      | some p => if p < i then i :: ancestors h p else [i]
      | none => [i] := by
  unfold ancestors
  cases i with
  | zero =>
    simp only [ancestorsAux]
    cases parentOf h 0 with
    | some p => simp
    | none => rfl
  | succ n =>
    simp only [ancestorsAux]
    cases parentOf h (n + 1) with
    | none => rfl
    | some p =>
      by_cases hlt : p < n + 1
      · simp only [if_pos hlt]
        rw [ancestorsAux_irrel h n p p (by omega) (Nat.le_refl p)]
      · simp [hlt]

theorem nearestDeclAux_irrel (h : Hierarchy) :
    ∀ f1 i f2, i ≤ f1 → i ≤ f2 →
      nearestDeclAux h f1 i = nearestDeclAux h f2 i := by
  intro f1
  induction f1 with
  | zero =>
    intro i f2 h1 _
    have h0 : i = 0 := Nat.le_zero.mp h1
    subst h0
    cases f2 with
    | zero => rfl
    | succ f2 =>
      simp only [nearestDeclAux]
      cases declaredOf h 0 with
      | some d => rfl
      | none =>
        cases parentOf h 0 with
        | some p => simp
        | none => rfl
  | succ f1 ih =>
    intro i f2 h1 h2
    cases f2 with
    | zero =>
      have h0 : i = 0 := Nat.le_zero.mp h2
      subst h0
      simp only [nearestDeclAux]
      cases declaredOf h 0 with
      | some d => rfl
      | none =>
        cases parentOf h 0 with
        | some p => simp
        | none => rfl
    | succ f2 =>
      simp only [nearestDeclAux]
      cases declaredOf h i with
      | some d => rfl
      | none =>
        cases parentOf h i with
        | some p =>
          by_cases hlt : p < i
          · simp only [if_pos hlt]
            rw [ih p f2 (by omega) (by omega)]
          · simp [hlt]
        | none => rfl

theorem nearestDecl_eq (h : Hierarchy) (i : Nat) :
    nearestDecl h i =
      match declaredOf h i with
      | some d => d
      | none =>
        match parentOf h i with
        | some p => if p < i then nearestDecl h p else []
        | none => [] := by
  unfold nearestDecl
  cases i with
  | zero =>
    simp only [nearestDeclAux]
    cases declaredOf h 0 with
    | some d => rfl
    | none =>
      cases parentOf h 0 with
      | some p => simp
      | none => rfl
  | succ n =>
    simp only [nearestDeclAux]
    cases declaredOf h (n + 1) with
    | some d => rfl
    | none =>
      cases parentOf h (n + 1) with
      | none => rfl
      | some p =>
        by_cases hlt : p < n + 1
        · simp only [if_pos hlt]
          rw [nearestDeclAux_irrel h n p p (by omega) (Nat.le_refl p)]
        · simp [hlt]

theorem flatMap_congr_mem {α β : Type} {l : List α} {f g : α → List β}
    (H : ∀ a ∈ l, f a = g a) : l.flatMap f = l.flatMap g := by
  induction l with
  | nil => rfl
  | cons a t ih =>
    simp only [List.flatMap_cons]
    rw [H a (List.mem_cons_self a t),
      ih fun x hx => H x (List.mem_cons_of_mem _ hx)]

theorem allSubsAux_irrel (h : Hierarchy) :
    ∀ f1 i f2, h.length - i ≤ f1 → h.length - i ≤ f2 →
      allSubsAux h f1 i = allSubsAux h f2 i := by
  intro f1
  induction f1 with
  | zero =>
    intro i f2 h1 _
    have hnil : children h i = [] := by
      rw [List.eq_nil_iff_forall_not_mem]
      intro j hj
      have hb := children_bounds hj
      omega
    cases f2 with
    | zero => rfl
    | succ f2 => simp [allSubsAux, hnil]
  | succ f1 ih =>
    intro i f2 h1 h2
    cases f2 with
    | zero =>
      have hnil : children h i = [] := by
        rw [List.eq_nil_iff_forall_not_mem]
        intro j hj
        have hb := children_bounds hj
        omega
      simp [allSubsAux, hnil]
    | succ f2 =>
      simp only [allSubsAux]
      congr 1
      apply flatMap_congr_mem
      intro c hc
      have hb := children_bounds hc
      exact ih c f2 (by omega) (by omega)

theorem allSubs_unfold (h : Hierarchy) (i : Nat) :
    allSubs h i = children h i ++ (children h i).flatMap (allSubs h) := by
  unfold allSubs
  cases hln : h.length with
  | zero =>
    have hnil : children h i = [] := by
      rw [List.eq_nil_iff_forall_not_mem]
      intro j hj
      have hb := children_bounds hj
      omega
    simp [allSubsAux, hnil]
  | succ n =>
    simp only [allSubsAux]
    congr 1
    apply flatMap_congr_mem
    intro c hc
    have hb := children_bounds hc
    exact allSubsAux_irrel h n c (n + 1) (by omega) (by omega)

theorem mem_allSubs_iff {h : Hierarchy} {i j : Nat} :
    j ∈ allSubs h i ↔
      j ∈ children h i ∨ ∃ c ∈ children h i, j ∈ allSubs h c := by
  rw [allSubs_unfold]
  simp [List.mem_append, List.mem_flatMap]

theorem findClassAux_irrel (h : Hierarchy) (st : ClassState) :
    ∀ f1 c f2 attrs, c ≤ f1 → c ≤ f2 →
      findClassAux h st f1 c attrs = findClassAux h st f2 c attrs := by
  intro f1
  induction f1 with
  | zero =>
    intro c f2 attrs h1 _
    have h0 : c = 0 := Nat.le_zero.mp h1
    subst h0
    cases f2 with
    | zero => rfl
    | succ f2 =>
      simp only [findClassAux]
      cases parentOf h 0 with
      | none => rfl
      | some p => simp
  | succ f1 ih =>
    intro c f2 attrs h1 h2
    cases f2 with
    | zero =>
      have h0 : c = 0 := Nat.le_zero.mp h2
      subst h0
      simp only [findClassAux]
      cases parentOf h 0 with
      | none => rfl
      | some p => simp
    | succ f2 =>
      simp only [findClassAux]
      cases parentOf h c with
      | none => rfl
      | some p =>
        by_cases hlt : p < c
        · simp only [if_pos hlt]
          by_cases hab : isAbs h p
          · simp [hab]
          · simp only [hab, Bool.false_eq_true, if_false]
            by_cases hp0 : p = 0
            · simp [hp0]
            · simp only [hp0, if_false]
              by_cases hall : (attrs.all fun a => hasName (classDict h st p) a) = true
              · simp only [hall, if_true]
                exact ih p f2 attrs (by omega) (by omega)
              · simp [hall]
        · simp [hlt]

theorem findClass_eq (h : Hierarchy) (st : ClassState) (c : Nat)
    (attrs : List String) :
    findClass h st c attrs =
      match parentOf h c with
      | none => c
      | some p =>
        if p < c then
          if isAbs h p then c
          else if p = 0 then c
          else if attrs.all fun a => hasName (classDict h st p) a then
            findClass h st p attrs
          else c
        else c := by
  unfold findClass
  cases c with
  | zero =>
    simp only [findClassAux]
    cases parentOf h 0 with
    | none => rfl
    | some p => simp
  | succ n =>
    simp only [findClassAux]
    cases parentOf h (n + 1) with
    | none => rfl
    | some p =>
      by_cases hlt : p < n + 1
      · simp only [if_pos hlt]
        by_cases hab : isAbs h p
        · simp [hab]
        · simp only [hab, Bool.false_eq_true, if_false]
          by_cases hp0 : p = 0
          · simp [hp0]
          · simp only [hp0, if_false]
            by_cases hall : (attrs.all fun a => hasName (classDict h st p) a) = true
            · simp only [hall, if_true]
              exact findClassAux_irrel h st n p p attrs (by omega) (Nat.le_refl p)
            · simp [hall]
      · simp [hlt]

theorem anc_self (h : Hierarchy) (i : Nat) : i ∈ ancestors h i := by
  rw [ancestors_eq]
  split
  · split
    · exact List.mem_cons_self _ _
    · simp
  · simp

theorem anc_le (h : Hierarchy) : ∀ i x, x ∈ ancestors h i → x ≤ i := by
  intro i
  induction i using Nat.strong_induction_on with
  | _ i ih =>
    intro x hx
    rw [ancestors_eq] at hx
    split at hx
    next p _hp =>
      split at hx
      next hlt =>
        rcases List.mem_cons.mp hx with rfl | hx
        · exact Nat.le_refl x
        · exact Nat.le_trans (ih p hlt x hx) (Nat.le_of_lt hlt)
      next => simp_all
    next => simp_all

theorem anc_cons {h : Hierarchy} {i j : Nat} (hp : parentOf h j = some i)
    (hlt : i < j) : ancestors h j = j :: ancestors h i := by
  rw [ancestors_eq, hp]
  simp [hlt]

theorem anc_mem_trans (h : Hierarchy) :
    ∀ z y x, y ∈ ancestors h z → x ∈ ancestors h y → x ∈ ancestors h z := by
  intro z
  induction z using Nat.strong_induction_on with
  | _ z ih =>
    intro y x hy hx
    rw [ancestors_eq] at hy
    split at hy
    next p hp =>
      split at hy
      next hlt =>
        rcases List.mem_cons.mp hy with rfl | hy
        · exact hx
        · rw [anc_cons hp hlt]
          exact List.mem_cons_of_mem _ (ih p hlt y x hy hx)
      next =>
        have hyz : y = z := by simpa using hy
        subst hyz
        exact hx
    next =>
      have hyz : y = z := by simpa using hy
      subst hyz
      exact hx

theorem anc_suffix (h : Hierarchy) :
    ∀ j c, c ∈ ancestors h j → ancestors h c <:+ ancestors h j := by
  intro j
  induction j using Nat.strong_induction_on with
  | _ j ih =>
    intro c hc
    rw [ancestors_eq] at hc
    split at hc
    next p hp =>
      split at hc
      next hlt =>
        rcases List.mem_cons.mp hc with rfl | hc
        · exact List.suffix_refl _
        · rw [anc_cons hp hlt]
          exact (ih p hlt c hc).trans (List.suffix_cons _ _)
      next =>
        have hcj : c = j := by simpa using hc
        subst hcj
        exact List.suffix_refl _
    next =>
      have hcj : c = j := by simpa using hc
      subst hcj
      exact List.suffix_refl _

theorem suffix_total {α : Type} {l1 l2 l : List α} (h1 : l1 <:+ l)
    (h2 : l2 <:+ l) : l1 <:+ l2 ∨ l2 <:+ l1 := by
  obtain ⟨t1, ht1⟩ := h1
  obtain ⟨t2, ht2⟩ := h2
  have ht : t1 ++ l1 = t2 ++ l2 := by rw [ht1, ht2]
  rcases List.append_eq_append_iff.mp ht with ⟨a, _, hl⟩ | ⟨c, _, hl⟩
  · right
    exact ⟨a, hl.symm⟩
  · left
    exact ⟨c, hl.symm⟩

theorem subs_lt_aux (h : Hierarchy) :
    ∀ n i j, h.length - i ≤ n → j ∈ allSubs h i → i < j := by
  intro n
  induction n with
  | zero =>
    intro i j hle hj
    rcases mem_allSubs_iff.mp hj with hj | ⟨c, hc, _⟩
    · exact (children_bounds hj).2
    · have hb := children_bounds hc
      omega
  | succ n ih =>
    intro i j hle hj
    rcases mem_allSubs_iff.mp hj with hj | ⟨c, hc, hj⟩
    · exact (children_bounds hj).2
    · have hb := children_bounds hc
      have hcj := ih c j (by omega) hj
      omega

theorem subs_lt {h : Hierarchy} {i j : Nat} (hj : j ∈ allSubs h i) : i < j :=
  subs_lt_aux h (h.length - i) i j (Nat.le_refl _) hj

theorem anc_of_mem_subs_aux (h : Hierarchy) :
    ∀ n i j, h.length - i ≤ n → j ∈ allSubs h i → i ∈ ancestors h j := by
  intro n
  induction n with
  | zero =>
    intro i j hle hj
    rcases mem_allSubs_iff.mp hj with hj | ⟨c, hc, _⟩
    · obtain ⟨_, hp, hlt⟩ := mem_children_iff.mp hj
      rw [anc_cons hp hlt]
      exact List.mem_cons_of_mem _ (anc_self h i)
    · have hb := children_bounds hc
      omega
  | succ n ih =>
    intro i j hle hj
    rcases mem_allSubs_iff.mp hj with hj | ⟨c, hc, hj⟩
    · obtain ⟨_, hp, hlt⟩ := mem_children_iff.mp hj
      rw [anc_cons hp hlt]
      exact List.mem_cons_of_mem _ (anc_self h i)
    · have hb := children_bounds hc
      have hcj : c ∈ ancestors h j := ih c j (by omega) hj
      obtain ⟨_, hp, hlt⟩ := mem_children_iff.mp hc
      have hic : i ∈ ancestors h c := by
        rw [anc_cons hp hlt]
        exact List.mem_cons_of_mem _ (anc_self h i)
      exact anc_mem_trans h j c i hcj hic

theorem anc_of_mem_subs {h : Hierarchy} {i j : Nat} (hj : j ∈ allSubs h i) :
    i ∈ ancestors h j :=
  anc_of_mem_subs_aux h (h.length - i) i j (Nat.le_refl _) hj

theorem child_not_in_branch {h : Hierarchy} {i c j : Nat}
    (hj : j ∈ children h i) (hc : c ∈ children h i)
    (hjc : j ∈ allSubs h c) : False := by
  have hcj : c < j := subs_lt hjc
  have hca : c ∈ ancestors h j := anc_of_mem_subs hjc
  obtain ⟨_, hpj, hij⟩ := mem_children_iff.mp hj
  rw [anc_cons hpj hij] at hca
  rcases List.mem_cons.mp hca with h' | h'
  · omega
  · have h1 := anc_le h i c h'
    have h2 := (children_bounds hc).2
    omega

theorem branch_core {h : Hierarchy} {i c1 c2 : Nat}
    (h1 : c1 ∈ children h i) (h2 : c2 ∈ children h i) (hne : c1 ≠ c2)
    (hs : ancestors h c1 <:+ ancestors h c2) : False := by
  have hmem : c1 ∈ ancestors h c2 := hs.subset (anc_self h c1)
  obtain ⟨_, hp2, hlt2⟩ := mem_children_iff.mp h2
  rw [anc_cons hp2 hlt2] at hmem
  rcases List.mem_cons.mp hmem with h' | h'
  · exact hne h'
  · have ha := anc_le h i c1 h'
    have hb := (children_bounds h1).2
    omega

theorem subs_branch_disjoint {h : Hierarchy} {i c1 c2 j : Nat}
    (h1 : c1 ∈ children h i) (h2 : c2 ∈ children h i) (hne : c1 ≠ c2)
    (hj1 : j ∈ allSubs h c1) (hj2 : j ∈ allSubs h c2) : False := by
  have hs1 := anc_suffix h j c1 (anc_of_mem_subs hj1)
  have hs2 := anc_suffix h j c2 (anc_of_mem_subs hj2)
  rcases suffix_total hs1 hs2 with hs | hs
  · exact branch_core h1 h2 hne hs
  · exact branch_core h2 h1 (fun e => hne e.symm) hs

theorem subs_nodup_aux (h : Hierarchy) :
    ∀ n i, h.length - i ≤ n → (allSubs h i).Nodup := by
  intro n
  induction n with
  | zero =>
    intro i hle
    rw [allSubs_unfold]
    have hnil : children h i = [] := by
      rw [List.eq_nil_iff_forall_not_mem]
      intro j hj
      have hb := children_bounds hj
      omega
    rw [hnil]
    simp
  | succ n ih =>
    intro i hle
    rw [allSubs_unfold]
    rw [List.nodup_append]
    refine ⟨children_nodup h i, ?_, ?_⟩
    · rw [List.nodup_flatMap]
      constructor
      · intro c hc
        have hb := children_bounds hc
        exact ih c (by omega)
      · refine List.Pairwise.imp_of_mem ?_ (children_pairwise_lt h i)
        intro c1 c2 h1 h2 hlt
        intro j hj1 hj2
        exact subs_branch_disjoint h1 h2 (by omega) hj1 hj2
    · intro j hj hj2
      rw [List.mem_flatMap] at hj2
      obtain ⟨c, hc, hjc⟩ := hj2
      exact child_not_in_branch hj hc hjc

theorem subs_nodup (h : Hierarchy) (i : Nat) : (allSubs h i).Nodup :=
  subs_nodup_aux h (h.length - i) i (Nat.le_refl _)

theorem subs_trans_aux (h : Hierarchy) :
    ∀ n i p j, h.length - i ≤ n → p ∈ allSubs h i → j ∈ allSubs h p →
      j ∈ allSubs h i := by
  intro n
  induction n with
  | zero =>
    intro i p j hle hp hj
    rcases mem_allSubs_iff.mp hp with hp | ⟨c, hc, _⟩
    · exact mem_allSubs_iff.mpr (Or.inr ⟨p, hp, hj⟩)
    · have hb := children_bounds hc
      omega
  | succ n ih =>
    intro i p j hle hp hj
    rcases mem_allSubs_iff.mp hp with hp | ⟨c, hc, hp⟩
    · exact mem_allSubs_iff.mpr (Or.inr ⟨p, hp, hj⟩)
    · have hb := children_bounds hc
      exact mem_allSubs_iff.mpr (Or.inr ⟨c, hc, ih c p j (by omega) hp hj⟩)

theorem subs_trans {h : Hierarchy} {i p j : Nat} (hp : p ∈ allSubs h i)
    (hj : j ∈ allSubs h p) : j ∈ allSubs h i :=
  subs_trans_aux h (h.length - i) i p j (Nat.le_refl _) hp hj

theorem parentLtB_spec {h : Hierarchy} {j : Nat} (hj : parentLtB h j = true) :
    ∃ p, parentOf h j = some p ∧ p < j := by
  unfold parentLtB at hj
  split at hj
  next p hp => exact ⟨p, hp, by simpa using hj⟩
  next => cases hj

/-- In a well-formed hierarchy, `_get_all_subclasses` run from the root
reaches every class of the hierarchy other than the root itself. -/
theorem subs_complete {h : Hierarchy} (hw : Wf h) :
    ∀ j, 0 < j → j < h.length → j ∈ allSubs h 0 := by
  intro j
  induction j using Nat.strong_induction_on with
  | _ j ih =>
    intro hj0 hjlen
    obtain ⟨p, hp, hplt⟩ := parentLtB_spec (hw.2.2 j hjlen hj0)
    have hjc : j ∈ children h p := mem_children_iff.mpr ⟨hjlen, hp, hplt⟩
    rcases Nat.eq_zero_or_pos p with rfl | hppos
    · exact mem_allSubs_iff.mpr (Or.inl hjc)
    · have hpmem : p ∈ allSubs h 0 := ih p hplt hppos (by omega)
      exact subs_trans hpmem (mem_allSubs_iff.mpr (Or.inl hjc))

theorem anc_shape (h : Hierarchy) (i : Nat) :
    ∃ t, ancestors h i = i :: t := by
  rw [ancestors_eq]
  split
  · split
    · exact ⟨_, rfl⟩
    · exact ⟨[], rfl⟩
  · exact ⟨[], rfl⟩

theorem findPropOwner_self {h : Hierarchy} {st : ClassState} {i : Nat}
    {nm : String} (hown : hasName (classDict h st i) nm = true) :
    findPropOwner h st i nm = some i := by
  obtain ⟨t, ht⟩ := anc_shape h i
  unfold findPropOwner
  rw [ht]
  exact List.find?_cons_of_pos (p := fun c => hasName (classDict h st c) nm)
    t hown

theorem findPropOwner_none {h : Hierarchy} {st : ClassState} {i : Nat}
    {nm : String}
    (hno : ∀ c ∈ ancestors h i, hasName (classDict h st c) nm = false) :
    findPropOwner h st i nm = none := by
  unfold findPropOwner
  rw [List.find?_eq_none]
  intro c hc
  simp [hno c hc]

theorem getattrFb_snd {V : Type} (h : Hierarchy) (st : ClassState)
    (i : PyInstance V) (nm : String) : (getattrFb h st i nm).2 = i := by
  unfold getattrFb
  split
  · rfl
  · dsimp only
    split <;> rfl

theorem readAttr_snd {V : Type} (h : Hierarchy) (st : ClassState)
    (i : PyInstance V) (nm : String) :
    (readAttr h st i nm).2 =
      if (findPropOwner h st i.clsIdx nm).isSome then
        { i with record := i.record.insert nm }
      else i := by
  unfold readAttr
  split
  next o ho =>
    rw [ho]
    split
    · simp
    · simp [getattrFb_snd]
  next ho =>
    rw [ho]
    simp [getattrFb_snd]

theorem wrongAttr_inv {V : Type} {h : Hierarchy} {st : ClassState}
    {i i' : PyInstance V} {nm nm2 cn : String} {owners : List String}
    (hre : readAttr h st i nm = (.wrongAttr nm2 cn owners, i')) :
    nm2 = nm ∧ cn = classNameOf h i.clsIdx ∧
      owners = ((allSubs h 0).filter fun c =>
        hasName (classDict h st c) nm).map (classNameOf h) ∧
      owners ≠ [] := by
  unfold readAttr at hre
  split at hre
  next o ho =>
    dsimp only at hre
    split at hre
    · simp at hre
    · unfold getattrFb at hre
      split at hre
      · simp at hre
      · dsimp only at hre
        split at hre
        next hem => simp at hre
        next hem =>
          simp only [Prod.mk.injEq, ReadOutcome.wrongAttr.injEq] at hre
          obtain ⟨⟨e1, e2, e3⟩, _⟩ := hre
          refine ⟨e1.symm, e2.symm, e3.symm, ?_⟩
          subst e3
          intro hnil
          rw [hnil] at hem
          simp at hem
  next ho =>
    unfold getattrFb at hre
    split at hre
    · simp at hre
    · dsimp only at hre
      split at hre
      next hem => simp at hre
      next hem =>
        simp only [Prod.mk.injEq, ReadOutcome.wrongAttr.injEq] at hre
        obtain ⟨⟨e1, e2, e3⟩, _⟩ := hre
        refine ⟨e1.symm, e2.symm, e3.symm, ?_⟩
        subst e3
        intro hnil
        rw [hnil] at hem
        simp at hem

theorem nearest_not_mem {h : Hierarchy} {nm : String}
    (hnd : ∀ k, k < h.length → nm ∉ ((declaredOf h k).getD []).map Prod.fst) :
    ∀ j, nm ∉ (nearestDecl h j).map Prod.fst := by
  intro j
  induction j using Nat.strong_induction_on with
  | _ j ih =>
    rw [nearestDecl_eq]
    split
    next d hd =>
      have hjlen : j < h.length := by
        unfold declaredOf at hd
        cases hg : h.get? j with
        | none => rw [hg] at hd; simp at hd
        | some cls => exact (List.get?_eq_some.mp hg).1
      have hj := hnd j hjlen
      rw [hd] at hj
      simpa using hj
    next =>
      split
      next p hp =>
        split
        next hlt => exact ih p hlt
        next => simp
      next => simp

/-- C3: for an instance whose own class declares (and has synthesized) the
capability, setting the value through the property and then deleting it
leaves the property on the class with no backing slot, and any subsequent
read of such a state raises `DeletedAttributeError` — not
`WrongAttributeError` and not the plain unknown-attribute error (the
outcome constructors are mutually exclusive). -/
theorem spec_C3 (V : Type) (h : Hierarchy) (st : ClassState)
    (i : PyInstance V) (nm : String) (v : V)
    (hown : hasName (classDict h st i.clsIdx) nm = true) :
    (∃ i1 i2, writeCap h st i nm v = some i1 ∧
       deleteCap h st i1 nm = some i2 ∧
       i2.clsIdx = i.clsIdx ∧ i2.slots nm = none) ∧
    (∀ i2 : PyInstance V, i2.clsIdx = i.clsIdx → i2.slots nm = none →
       (readAttr h st i2 nm).1 = ReadOutcome.deletedAttr nm) := by
  have hfp : findPropOwner h st i.clsIdx nm = some i.clsIdx :=
    findPropOwner_self hown
  constructor
  · have h1 : writeCap h st i nm v =
        some { i with slots := fun k =>
          if k = nm then some v else i.slots k } := by
      unfold writeCap
      rw [hfp]
    have h2 : deleteCap h st
        { i with slots := fun k => if k = nm then some v else i.slots k } nm =
        some { i with slots := fun k => if k = nm then none else
          (fun k2 => if k2 = nm then some v else i.slots k2) k } := by
      unfold deleteCap
      rw [show findPropOwner h st (PyInstance.clsIdx
        { i with slots := fun k => if k = nm then some v else i.slots k }) nm
        = some i.clsIdx from hfp]
      simp
    refine ⟨_, _, h1, h2, rfl, ?_⟩
    simp
  · intro i2 hc hs
    have hfp2 : findPropOwner h st i2.clsIdx nm = some i.clsIdx := by
      rw [hc]
      exact hfp
    have hown2 : hasName (classDict h st i2.clsIdx) nm = true := by
      rw [hc]
      exact hown
    unfold readAttr
    rw [hfp2]
    dsimp only
    rw [hs]
    unfold getattrFb
    rw [if_pos hown2]

/-- C3 witness: on the concrete chain, a `Child4` instance state whose own
capability `c4` was set to `7` and then deleted reads back as
`DeletedAttributeError`. -/
theorem spec_C3_witness :
    hasName (classDict chainH stChain
      (PyInstance.clsIdx
        { clsIdx := 3, slots := noSlotsN, record := [] })) "c4" = true ∧
    ((∃ i1 i2, writeCap chainH stChain
        { clsIdx := 3, slots := noSlotsN, record := [] } "c4" 7 = some i1 ∧
       deleteCap chainH stChain i1 "c4" = some i2 ∧
       i2.clsIdx = 3 ∧ i2.slots "c4" = none) ∧
     (∀ i2 : PyInstance Nat, i2.clsIdx = 3 → i2.slots "c4" = none →
       (readAttr chainH stChain i2 "c4").1 = ReadOutcome.deletedAttr "c4")) :=
  ⟨by decide, spec_C3 Nat chainH stChain
    { clsIdx := 3, slots := noSlotsN, record := [] } "c4" 7 (by decide)⟩

/-- C4: reading a name that no class of the hierarchy declares in any
`_class_openswitch_attributes` dict ends in the plain `AttributeError` of
the final `self.__getattribute__(name)` — never in `WrongAttributeError`
(and never in `DeletedAttributeError`). -/
theorem spec_C4 (V : Type) (h : Hierarchy) (st : ClassState)
    (i : PyInstance V) (nm : String)
    (hnd : ∀ k, k < h.length →
      nm ∉ ((declaredOf h k).getD []).map Prod.fst) :
    (readAttr h st i nm).1 = ReadOutcome.attrErr := by
  have hdict : ∀ j, hasName (classDict h st j) nm = false := by
    intro j
    rw [hasName_false_iff]
    unfold classDict
    split
    · exact nearest_not_mem hnd j
    · simp
  have hfp : findPropOwner h st i.clsIdx nm = none :=
    findPropOwner_none fun c _ => hdict c
  unfold readAttr
  rw [hfp]
  unfold getattrFb
  rw [hdict i.clsIdx]
  dsimp only
  have hfil : ((allSubs h 0).filter fun c =>
      hasName (classDict h st c) nm) = [] := by
    rw [List.filter_eq_nil_iff]
    intro c _
    simp [hdict c]
  rw [hfil]
  rfl

/-- C4 witness: on the concrete chain, reading the undeclared name `zz` on
a `Child4` instance gives the plain unknown-attribute error. -/
theorem spec_C4_witness :
    (∀ k, k < chainH.length →
      "zz" ∉ ((declaredOf chainH k).getD []).map Prod.fst) ∧
    (readAttr chainH stChain
      { clsIdx := 3, slots := noSlotsN, record := [] } "zz").1 =
      ReadOutcome.attrErr :=
  ⟨by decide, spec_C4 Nat chainH stChain
    { clsIdx := 3, slots := noSlotsN, record := [] } "zz" (by decide)⟩

/-- C9: for any value of any type, setting a capability whose synthesized
property is reachable on the instance's class and then getting it returns
exactly that value. -/
theorem spec_C9 (V : Type) (h : Hierarchy) (st : ClassState)
    (i : PyInstance V) (nm : String) (v : V)
    (hp : (findPropOwner h st i.clsIdx nm).isSome = true) :
    ∃ i', writeCap h st i nm v = some i' ∧
      (readAttr h st i' nm).1 = ReadOutcome.ok v := by
  obtain ⟨o, ho⟩ := Option.isSome_iff_exists.mp hp
  refine ⟨{ i with slots := fun k => if k = nm then some v else i.slots k },
    ?_, ?_⟩
  · unfold writeCap
    rw [ho]
  · unfold readAttr
    rw [show findPropOwner h st (PyInstance.clsIdx
      { i with slots := fun k => if k = nm then some v else i.slots k }) nm
      = some o from ho]
    simp

/-- C9 witness: on the concrete chain, a `Child4` instance sets `c2`
(inherited from `Child2`) to `42` and reads back exactly `42`. -/
theorem spec_C9_witness :
    (findPropOwner chainH stChain
      (PyInstance.clsIdx
        { clsIdx := 3, slots := noSlotsN, record := [] }) "c2").isSome
      = true ∧
    ∃ i', writeCap chainH stChain
        { clsIdx := 3, slots := noSlotsN, record := [] } "c2" 42 = some i' ∧
      (readAttr chainH stChain i' "c2").1 = ReadOutcome.ok 42 :=
  ⟨by decide, spec_C9 Nat chainH stChain
    { clsIdx := 3, slots := noSlotsN, record := [] } "c2" 42 (by decide)⟩

/-- C7: `_attribute_record` is the empty set at construction; a read can
only add to it (the getter's guarded `set.add`), a write or delete through
a property leaves it untouched, so no operation removes an element; and
re-reading the same name leaves the record exactly unchanged (set
semantics, duplicates collapse). -/
theorem spec_C7 :
    (∀ (V : Type) (h : Hierarchy) (st : ClassState) (c : Nat)
       (s0 : String → Option V), (construct h st c s0).2.record = []) ∧
    (∀ (V : Type) (h : Hierarchy) (st : ClassState) (i : PyInstance V)
       (nm m : String), m ∈ i.record → m ∈ (readAttr h st i nm).2.record) ∧
    (∀ (V : Type) (h : Hierarchy) (st : ClassState) (i i' : PyInstance V)
       (nm : String) (v : V),
       writeCap h st i nm v = some i' → i'.record = i.record) ∧
    (∀ (V : Type) (h : Hierarchy) (st : ClassState) (i i' : PyInstance V)
       (nm : String),
       deleteCap h st i nm = some i' → i'.record = i.record) ∧
    (∀ (V : Type) (h : Hierarchy) (st : ClassState) (i : PyInstance V)
       (nm : String),
       (readAttr h st (readAttr h st i nm).2 nm).2.record =
         (readAttr h st i nm).2.record) := by
  refine ⟨fun V h st c s0 => rfl, ?_, ?_, ?_, ?_⟩
  · intro V h st i nm m hm
    rw [readAttr_snd]
    split
    · exact List.mem_insert_iff.mpr (Or.inr hm)
    · exact hm
  · intro V h st i i' nm v hw
    unfold writeCap at hw
    split at hw
    · simp only [Option.some.injEq] at hw
      subst hw
      rfl
    · cases hw
  · intro V h st i i' nm hw
    unfold deleteCap at hw
    split at hw
    · split at hw
      · simp only [Option.some.injEq] at hw
        subst hw
        rfl
      · cases hw
    · cases hw
  · intro V h st i nm
    by_cases hp : (findPropOwner h st i.clsIdx nm).isSome = true
    · have hcls : (readAttr h st i nm).2.clsIdx = i.clsIdx := by
        rw [readAttr_snd]
        split <;> rfl
      have hrec : (readAttr h st i nm).2.record = i.record.insert nm := by
        rw [readAttr_snd, if_pos hp]
      conv_lhs => rw [readAttr_snd]
      rw [hcls, if_pos hp]
      show (readAttr h st i nm).2.record.insert nm =
        (readAttr h st i nm).2.record
      rw [hrec]
      exact List.insert_of_mem (List.mem_insert_self _ _)
    · have hsnd : (readAttr h st i nm).2 = i := by
        rw [readAttr_snd, if_neg hp]
      rw [hsnd, hsnd]

/-- C7 witness: a `Child4` instance that already recorded `c2` keeps it in
the record across a read of an undeclared name, and a fresh construction
has an empty record. -/
theorem spec_C7_witness :
    (construct chainH ([] : ClassState) 3 noSlotsN).2.record = [] ∧
    ("c2" ∈ (["c2"] : List String) ∧
      "c2" ∈ (readAttr chainH stChain
        { clsIdx := 3, slots := noSlotsN, record := ["c2"] } "zz").2.record) :=
  ⟨spec_C7.1 Nat chainH [] 3 noSlotsN,
    by decide,
    spec_C7.2.1 Nat chainH stChain
      { clsIdx := 3, slots := noSlotsN, record := ["c2"] } "zz" "c2"
      (by decide)⟩

/-- C8 counterexample: writing `c2` on a fresh `Child4` instance through
its synthesized property succeeds but leaves `accessedCapabilities` empty —
the property setter never touches `_attribute_record`, so the written name
is not a member afterwards, contradicting "writes are recorded as well as
reads". -/
theorem spec_C8_counterexample :
    (writeCap chainH stChain
      { clsIdx := 3, slots := noSlotsN, record := [] } "c2"
      (7 : Nat)).map PyInstance.record = some [] ∧
    "c2" ∉ ([] : List String) := by
  constructor
  · decide
  · decide

/-- C8 amended: after a capability with a reachable synthesized property is
read, its name is in `accessedCapabilities` (the getter records before the
slot access, so this holds even for failed reads); a write through the
property records nothing — only reads are recorded. -/
theorem spec_C8 :
    (∀ (V : Type) (h : Hierarchy) (st : ClassState) (i : PyInstance V)
       (nm : String), (findPropOwner h st i.clsIdx nm).isSome = true →
       nm ∈ (readAttr h st i nm).2.record) ∧
    (∀ (V : Type) (h : Hierarchy) (st : ClassState) (i i' : PyInstance V)
       (nm : String) (v : V),
       writeCap h st i nm v = some i' → i'.record = i.record) := by
  constructor
  · intro V h st i nm hp
    rw [readAttr_snd, if_pos hp]
    exact List.mem_insert_self _ _
  · intro V h st i i' nm v hw
    unfold writeCap at hw
    split at hw
    · simp only [Option.some.injEq] at hw
      subst hw
      rfl
    · cases hw

/-- C8 witness: reading `c2` on a fresh `Child4` instance puts `c2` into
the record. -/
theorem spec_C8_witness :
    (findPropOwner chainH stChain
      (PyInstance.clsIdx
        { clsIdx := 3, slots := noSlotsN, record := [] }) "c2").isSome
      = true ∧
    "c2" ∈ (readAttr chainH stChain
      { clsIdx := 3, slots := noSlotsN, record := [] } "c2").2.record :=
  ⟨by decide, spec_C8.1 Nat chainH stChain
    { clsIdx := 3, slots := noSlotsN, record := [] } "c2" (by decide)⟩

/-- C1 counterexample: in `sibH`, class `C` (index 1) is concrete and
declares capability `n` directly, `D` (index 2) is an unrelated concrete
sibling not declaring `n`; with only `D` ever instantiated, reading `n` on
a `D` instance raises the plain unknown-attribute error, not a
`WrongAttributeError` listing `C` — `C`'s property for `n` is synthesized
only when `C` itself is instantiated, so the provenance scan finds no
class carrying the name. -/
theorem spec_C1_counterexample :
    declaredOf sibH 1 = some [("n", "n doc")] ∧ isAbs sibH 1 = false ∧
    (readAttr sibH [2]
      { clsIdx := 2, slots := noSlotsN, record := [] } "n").1 =
      ReadOutcome.attrErr ∧
    listsOwner ((readAttr sibH [2]
      { clsIdx := 2, slots := noSlotsN, record := [] } "n").1) "C" = false := by
  refine ⟨by decide, by decide, by decide, by decide⟩

/-- C1 amended: if additionally the declaring class `C` has been
instantiated (so its property for the name is synthesized on it) and the
name has no synthesized property anywhere on the reading instance's own
MRO (so the lookup genuinely falls through to the provenance search),
then reading the name raises `WrongAttributeError` whose class list
includes `C`. -/
theorem spec_C1 (V : Type) (h : Hierarchy) (st : ClassState)
    (i : PyInstance V) (cIdx : Nat) (nm : String)
    (d : List (String × String))
    (hw : Wf h) (hCpos : 0 < cIdx) (hClen : cIdx < h.length)
    (_hCconc : isAbs h cIdx = false)
    (hCdecl : declaredOf h cIdx = some d) (hnm : nm ∈ d.map Prod.fst)
    (hCinst : cIdx ∈ st)
    (_hDconc : isAbs h i.clsIdx = false)
    (hno : ∀ c ∈ ancestors h i.clsIdx,
      hasName (classDict h st c) nm = false) :
    ∃ owners, readAttr h st i nm =
      (.wrongAttr nm (classNameOf h i.clsIdx) owners, i) ∧
      classNameOf h cIdx ∈ owners := by
  have hfp : findPropOwner h st i.clsIdx nm = none := findPropOwner_none hno
  have hCdict : hasName (classDict h st cIdx) nm = true := by
    rw [hasName_iff]
    unfold classDict
    rw [if_pos hCinst]
    have hnd : nearestDecl h cIdx = d := by
      rw [nearestDecl_eq, hCdecl]
    rw [hnd]
    exact hnm
  have hCsub : cIdx ∈ allSubs h 0 := subs_complete hw cIdx hCpos hClen
  have hCmap : classNameOf h cIdx ∈ ((allSubs h 0).filter fun c =>
      hasName (classDict h st c) nm).map (classNameOf h) :=
    List.mem_map_of_mem _ (List.mem_filter.mpr ⟨hCsub, hCdict⟩)
  have hie : (((allSubs h 0).filter fun c =>
      hasName (classDict h st c) nm).map (classNameOf h)).isEmpty = false := by
    rw [List.isEmpty_eq_false]
    exact List.ne_nil_of_mem hCmap
  refine ⟨_, ?_, hCmap⟩
  unfold readAttr
  rw [hfp]
  unfold getattrFb
  rw [hno i.clsIdx (anc_self h i.clsIdx)]
  dsimp only
  rw [hie]
  rfl

/-- C1 witness: with both `C` and `D` instantiated in `sibH`, reading `n`
on a `D` instance raises `WrongAttributeError` listing `C`. -/
theorem spec_C1_witness :
    ∃ owners, readAttr sibH [1, 2]
        { clsIdx := 2, slots := noSlotsN, record := [] } "n" =
      (.wrongAttr "n"
        (classNameOf sibH
          (PyInstance.clsIdx
            { clsIdx := 2, slots := noSlotsN, record := [] })) owners,
        { clsIdx := 2, slots := noSlotsN, record := [] }) ∧
      classNameOf sibH 1 ∈ owners :=
  spec_C1 Nat sibH [1, 2]
    { clsIdx := 2, slots := noSlotsN, record := [] } 1 "n" [("n", "n doc")]
    (by decide) (by decide) (by decide) (by decide) (by decide) (by decide)
    (by decide) (by decide) (by decide)

/-- C2 counterexample: in `inhH`, with `E` and `F` instantiated but
`Child2` (the only direct declarer of `x`) never instantiated, reading `x`
on an `F` instance raises `WrongAttributeError` whose class list is
exactly `["E"]` — it omits the direct declarer `Child2` and lists `E`,
which declares no capability dict of its own (`declaredOf inhH 2 = none`)
and merely had `Child2`'s nearest dict synthesized onto it at
instantiation.  The list is therefore not "exactly the concrete classes
that declare the name directly". -/
theorem spec_C2_counterexample :
    declaredOf inhH 2 = none ∧
    declaredOf inhH 1 = some [("x", "x doc")] ∧
    (readAttr inhH [2, 3]
      { clsIdx := 3, slots := noSlotsN, record := [] } "x").1 =
      ReadOutcome.wrongAttr "x" "F" ["E"] := by
  refine ⟨by decide, by decide, by decide⟩

/-- C2 amended: whenever the read raises `WrongAttributeError`, the carried
list is exactly the image under `__name__` of the deterministic
`_get_all_subclasses` traversal of the root filtered to the classes whose
`__dict__` currently holds the name — i.e. the instantiated classes whose
nearest declared dict contains it (direct declaration is neither necessary
nor sufficient); the list is non-empty, and in this single-inheritance
setting the traversal is duplicate-free and reaches every class of a
well-formed hierarchy except the root. -/
theorem spec_C2 (V : Type) (h : Hierarchy) (st : ClassState)
    (i i' : PyInstance V) (nm nm2 cn : String) (owners : List String)
    (hw : Wf h)
    (hre : readAttr h st i nm = (.wrongAttr nm2 cn owners, i')) :
    owners = ((allSubs h 0).filter fun c =>
      hasName (classDict h st c) nm).map (classNameOf h) ∧
    owners ≠ [] ∧
    (allSubs h 0).Nodup ∧
    (∀ j, 0 < j → j < h.length → j ∈ allSubs h 0) ∧
    (∀ c, hasName (classDict h st c) nm = true ↔
      c ∈ st ∧ nm ∈ (nearestDecl h c).map Prod.fst) := by
  obtain ⟨_, _, he3, he4⟩ := wrongAttr_inv hre
  refine ⟨he3, he4, subs_nodup h 0, subs_complete hw, ?_⟩
  intro c
  rw [hasName_iff]
  unfold classDict
  split
  next hc => simp [hc]
  next hc => simp [hc]

/-- C2 witness: the provenance list of the `inhH` read is exactly the
filtered traversal image. -/
theorem spec_C2_witness :
    ["E"] = ((allSubs inhH 0).filter fun c =>
      hasName (classDict inhH [2, 3] c) "x").map (classNameOf inhH) ∧
    (["E"] : List String) ≠ [] ∧
    (allSubs inhH 0).Nodup ∧
    (∀ j, 0 < j → j < inhH.length → j ∈ allSubs inhH 0) ∧
    (∀ c, hasName (classDict inhH [2, 3] c) "x" = true ↔
      c ∈ ([2, 3] : ClassState) ∧
        "x" ∈ (nearestDecl inhH c).map Prod.fst) :=
  spec_C2 Nat inhH [2, 3]
    { clsIdx := 3, slots := noSlotsN, record := [] }
    { clsIdx := 3, slots := noSlotsN, record := [] } "x" "x" "F" ["E"]
    (by decide) (by rfl)

/-- C5: end to end on the chain `Child4 < Child2 < Child1` (one capability
each), a `Child4` instance that sets and reads only `Child2`'s capability
`c2` has `accessedCapabilities = ["c2"]`, and teardown with that record
emits an advisory naming `Child2` as the sufficient class; in general
`_find_class` never recommends an abstract class when started from a
concrete one (abstract parents stop the walk), and when the recommended
class equals the instance's own class no warning is emitted. -/
theorem spec_C5 :
    ((readAttr chainH stChain
        ((writeCap chainH stChain
          { clsIdx := 3, slots := noSlotsN, record := [] } "c2" 7).getD
            { clsIdx := 3, slots := noSlotsN, record := [] })
        "c2").2.record = ["c2"] ∧
     teardown chainH stChain 3 (some ["c2"]) (some "sw1") =
       some { identifier := "sw1", recommended := "Child2" }) ∧
    (∀ (h : Hierarchy) (st : ClassState) (c : Nat) (attrs : List String),
       isAbs h c = false → isAbs h (findClass h st c attrs) = false) ∧
    (∀ (h : Hierarchy) (st : ClassState) (c : Nat) (r : List String)
       (id : String), findClass h st c r = c →
       delBody h st c (some r) (some id) = Except.ok none) := by
  refine ⟨⟨by decide, by decide⟩, ?_, ?_⟩
  · intro h st c attrs
    induction c using Nat.strong_induction_on with
    | _ c ih =>
      intro hconc
      rw [findClass_eq]
      split
      · exact hconc
      next p hp =>
        by_cases hlt : p < c
        · rw [if_pos hlt]
          by_cases hab : isAbs h p = true
          · rw [if_pos hab]
            exact hconc
          · rw [if_neg hab]
            by_cases hp0 : p = 0
            · rw [if_pos hp0]
              exact hconc
            · rw [if_neg hp0]
              by_cases hall :
                  (attrs.all fun a => hasName (classDict h st p) a) = true
              · rw [if_pos hall]
                exact ih p hlt (Bool.not_eq_true _ ▸ hab)
              · rw [if_neg hall]
                exact hconc
        · rw [if_neg hlt]
          exact hconc
  · intro h st c r id hfc
    unfold delBody
    dsimp only
    rw [hfc, if_pos rfl]

/-- C5 witness: a record containing `Child4`'s own capability makes
`_find_class` return `Child4` itself — a concrete class — and the audit is
then silent. -/
theorem spec_C5_witness :
    isAbs chainH (findClass chainH stChain 3 ["c4", "c2"]) = false ∧
    delBody chainH stChain 3 (some ["c4", "c2"]) (some "sw2") =
      Except.ok none :=
  ⟨spec_C5.2.1 chainH stChain 3 ["c4", "c2"] (by decide),
    spec_C5.2.2 chainH stChain 3 ["c4", "c2"] "sw2" (by decide)⟩

/-- C6 counterexample: for an instance whose base initializer never ran
(no `_attribute_record` slot), the `__del__` body itself raises
`AttributeError` — the method contains no exception handling, so "the
audit never raises under any instance state" is false; the error is
discarded only at the runtime's destructor boundary. -/
theorem spec_C6_counterexample :
    delBody chainH stChain 3 none (some "sw1") =
      Except.error (PyErr.attributeError "_attribute_record") := rfl

/-- C6 amended: any error the `__del__` body raises is swallowed at the
CPython destructor boundary (it never propagates to the code driving
teardown), and on instances that do carry `_attribute_record` and an
identifier the audit body completes without raising. -/
theorem spec_C6 :
    (∀ (h : Hierarchy) (st : ClassState) (c : Nat)
       (r? : Option (List String)) (id? : Option String) (e : PyErr),
       delBody h st c r? id? = Except.error e →
       teardown h st c r? id? = none) ∧
    (∀ (h : Hierarchy) (st : ClassState) (c : Nat) (r : List String)
       (id : String),
       ∃ w, delBody h st c (some r) (some id) = Except.ok w) := by
  constructor
  · intro h st c r? id? e hde
    unfold teardown
    rw [hde]
  · intro h st c r id
    unfold delBody
    dsimp only
    by_cases hfc : findClass h st c r = c
    · exact ⟨none, by rw [if_pos hfc]⟩
    · exact ⟨some ⟨id, classNameOf h (findClass h st c r)⟩,
        by rw [if_neg hfc]⟩

/-- C6 witness: the missing-record error is discarded by the runtime
boundary: teardown yields no warning and no exception. -/
theorem spec_C6_witness :
    teardown chainH stChain 3 none (some "sw1") = none :=
  spec_C6.1 chainH stChain 3 none (some "sw1")
    (PyErr.attributeError "_attribute_record") rfl

/-- C10 counterexample: "never containing the attribute name" fails — for
an attribute literally named `Attribute`, the constant message contains
the name (it is the template's first word), even though nothing was
interpolated: the message splits as the name followed by the rest of the
template. -/
theorem spec_C10_counterexample :
    deletedAttrStr "Attribute" = deletedAttrStr "x" ∧
    deletedAttrStr "Attribute" =
      "Attribute" ++
        " \x7b\x7d was not present in the instance but is present in" ++
        " the class. Has it been deleted?" :=
  ⟨rfl, rfl⟩

/-- C10 amended: `DeletedAttributeError.__str__` returns the same
unformatted constant template for every attribute — the message is
independent of the attribute name and still contains the literal
placeholder characters (shown by the explicit decomposition around them) —
so the message never identifies which attribute was deleted, though a
name may coincidentally occur as a substring of the constant. -/
theorem spec_C10 (a b : String) :
    deletedAttrStr a = deletedAttrStr b ∧
    deletedAttrStr a =
      "Attribute " ++ "\x7b\x7d" ++
        " was not present in the instance but is present in" ++
        " the class. Has it been deleted?" :=
  ⟨rfl, rfl⟩

/-- C10 witness: the amended statement evaluated at two concrete attribute
names. -/
theorem spec_C10_witness :
    deletedAttrStr "power_status" = deletedAttrStr "boot_image" ∧
    deletedAttrStr "power_status" =
      "Attribute " ++ "\x7b\x7d" ++
        " was not present in the instance but is present in" ++
        " the class. Has it been deleted?" :=
  spec_C10 "power_status" "boot_image"
